import Mathlib

/-!
Verification of the tour-date discovery pipeline (`python/tour_scraper.py`).

Shallow embedding conventions:
* Python `int` is modelled as `Int`; Python `float` values that the claims
  compare (`fg_pct`) are modelled as exact rationals (`Rat`); the decimal
  literals in the source and the spec denote the same rationals.
* Calendar dates are modelled as day numbers (`Int`): the scanner only ever
  compares dates and adds one day, which both translate directly.
* HTML documents are modelled at the level the extraction functions read
  them: a box-score document is a list of team sections; a section carries
  an optional header text and an optional table body of player rows; each
  row carries its totals flag, its optional player-name tag text and the
  texts of its cells.  Network fetches are modelled as an environment of
  `Except`-valued functions (success with the parsed payload, or a
  transport error).
* Python's `float(...)` and `int(...)` constructors are modelled on the
  decimal-literal fragment the scraped cells can contain: surrounding
  whitespace, an optional sign, digits with at most one decimal point.
-/

/-- ASCII whitespace, as stripped by Python's `str.strip()`. -/
def isPySpace (c : Char) : Bool :=
  c = ' ' ∨ c = '\t' ∨ c = '\n' ∨ c = '\r'

/-- Python `str.strip()` on a character list: drop whitespace at both ends. -/
def stripChars (l : List Char) : List Char :=
  ((l.dropWhile isPySpace).reverse.dropWhile isPySpace).reverse

/-- ASCII digit test, matching `str.isdigit` on the ASCII fragment. -/
def isDigitChar (c : Char) : Bool :=
  '0' ≤ c ∧ c ≤ '9'

/-- Numeric value of a digit list read in base 10. -/
def digitsVal (l : List Char) : Nat :=
  l.foldl (fun a c => a * 10 + (c.toNat - 48)) 0

/-- Python `int(value)` on the fragment used by the scraper: strip
whitespace, optional sign, then one or more digits. -/
def pyInt (s : String) : Option Int :=
  let t := stripChars s.data
  let body := if t.head? = some '-' ∨ t.head? = some '+' then t.tail else t
  if body ≠ [] ∧ body.all isDigitChar then
    some (if t.head? = some '-' then -(digitsVal body : Int) else (digitsVal body : Int))
  else none

/-- Python `float(value)` on the decimal-literal fragment: strip whitespace,
optional sign, an integer part and an optional fractional part, at least one
digit overall.  Exponents and the `inf`/`nan` spellings never occur in the
scraped cells and are not modelled. -/
def pyFloat (s : String) : Option Rat :=
  let t := stripChars s.data
  let sign : Rat := if t.head? = some '-' then -1 else 1
  let body := if t.head? = some '-' ∨ t.head? = some '+' then t.tail else t
  let intPart := body.takeWhile isDigitChar
  let rest := body.dropWhile isDigitChar
  if rest = [] then
    if intPart ≠ [] then some (sign * (digitsVal intPart : Rat)) else none
  else if rest.head? = some '.' ∧ rest.tail.all isDigitChar ∧ (intPart ≠ [] ∨ rest.tail ≠ []) then
    some (sign * ((digitsVal intPart : Rat) + (digitsVal rest.tail : Rat) / (10 : Rat) ^ rest.tail.length))
  else none

/-- The fixed non-leap-year month length table `MONTH_DAY_LIMITS`
(`dict.get`: `none` outside the keys 1..12). -/
def MONTH_DAY_LIMITS (m : Int) : Option Int :=
  if m = 1 then some 31
  else if m = 2 then some 28
  else if m = 3 then some 31
  else if m = 4 then some 30
  else if m = 5 then some 31
  else if m = 6 then some 30
  else if m = 7 then some 31
  else if m = 8 then some 31
  else if m = 9 then some 30
  else if m = 10 then some 31
  else if m = 11 then some 30
  else if m = 12 then some 31
  else none

/-- `validate_tour_date(fgm, fga, fg_pct)`: the tour-date eligibility rule,
translated clause by clause from the source. -/
def validate_tour_date (fgm fga : Int) (fg_pct : Rat) : Bool :=
  if ¬ (1 ≤ fgm ∧ fgm ≤ 12) then false
  else
    match MONTH_DAY_LIMITS fgm with
    | none => false
    | some month_max =>
      if fga > month_max then false
      else if fga ≤ fgm then false
      else if fga > 31 then false
      else if fg_pct ≥ 1 / 2 then false
      else true

/-- Inside 1..12 the month table always yields a limit, between 28 and 31. -/
theorem MONTH_DAY_LIMITS_isSome (m : Int) (h1 : 1 ≤ m) (h2 : m ≤ 12) :
    ∃ L, MONTH_DAY_LIMITS m = some L ∧ 28 ≤ L ∧ L ≤ 31 := by
  interval_cases m <;> exact ⟨_, rfl, by norm_num, by norm_num⟩

/-- C1: `validate_tour_date` holds exactly when `made` is a valid month,
`attempted` strictly exceeds `made`, `attempted` fits the month's day limit
from the fixed non-leap-year table, `attempted ≤ 31`, and the percentage is
strictly below one half; outside months 1..12 it is false, and at the
concrete points (2, 29, 0.40) it is false while (2, 28, 0.40) it is true. -/
theorem validate_tour_date_spec :
    (∀ (made attempted : Int) (pct : Rat),
      validate_tour_date made attempted pct = true ↔
        (1 ≤ made ∧ made ≤ 12 ∧ made < attempted ∧
          (∃ L, MONTH_DAY_LIMITS made = some L ∧ attempted ≤ L) ∧
          attempted ≤ 31 ∧ pct < 1 / 2)) ∧
    (∀ (made attempted : Int) (pct : Rat), (made < 1 ∨ 12 < made) →
      validate_tour_date made attempted pct = false) ∧
    validate_tour_date 2 29 (2 / 5) = false ∧
    validate_tour_date 2 28 (2 / 5) = true := by
  have main : ∀ (made attempted : Int) (pct : Rat),
      validate_tour_date made attempted pct = true ↔
        (1 ≤ made ∧ made ≤ 12 ∧ made < attempted ∧
          (∃ L, MONTH_DAY_LIMITS made = some L ∧ attempted ≤ L) ∧
          attempted ≤ 31 ∧ pct < 1 / 2) := by
    intro made attempted pct
    unfold validate_tour_date
    by_cases hm : 1 ≤ made ∧ made ≤ 12
    · obtain ⟨L, hL, h28, hL31⟩ := MONTH_DAY_LIMITS_isSome made hm.1 hm.2
      rw [if_neg (not_not_intro hm), hL]
      simp only [Option.some.injEq, gt_iff_lt, ge_iff_le]
      split_ifs with h1 h2 h3 h4
      · exact iff_of_false (by simp)
          (by rintro ⟨-, -, -, ⟨L2, e, hle⟩, -, -⟩; omega)
      · exact iff_of_false (by simp)
          (by rintro ⟨-, -, hlt, -, -, -⟩; omega)
      · exact iff_of_false (by simp)
          (by rintro ⟨-, -, -, -, h31, -⟩; omega)
      · exact iff_of_false (by simp)
          (by rintro ⟨-, -, -, -, -, hpct⟩; exact absurd hpct (not_lt.mpr h4))
      · exact iff_of_true rfl
          ⟨hm.1, hm.2, by omega, ⟨L, rfl, by omega⟩, by omega, lt_of_not_ge h4⟩
    · rw [if_pos hm]
      exact iff_of_false (by simp) (by rintro ⟨a, b, -⟩; exact hm ⟨a, b⟩)
  refine ⟨main, ?_, by norm_num [validate_tour_date, MONTH_DAY_LIMITS],
    by norm_num [validate_tour_date, MONTH_DAY_LIMITS]⟩
  intro made attempted pct h
  unfold validate_tour_date
  rw [if_pos (by omega : ¬ (1 ≤ made ∧ made ≤ 12))]

/-- Witness: the characterisation evaluated at concrete points. -/
theorem validate_tour_date_spec_witness :
    validate_tour_date 5 31 (9 / 20) = true ∧ validate_tour_date 13 14 0 = false :=
  ⟨(validate_tour_date_spec.1 5 31 (9 / 20)).mpr
      ⟨by norm_num, by norm_num, by norm_num, ⟨31, rfl, by norm_num⟩, by norm_num, by norm_num⟩,
    validate_tour_date_spec.2.1 13 14 0 (Or.inr (by norm_num))⟩

/-- Python `str.strip("/")` on a character list: drop slashes at both ends. -/
def stripSlashChars (l : List Char) : List Char :=
  ((l.dropWhile (fun c => c = '/')).reverse.dropWhile (fun c => c = '/')).reverse

/-- `extract_game_id(href)`: strip whitespace and surrounding slashes, split
the whole remaining text on `-`, keep the last token iff it is a non-empty
all-digit string (`str.isdigit`). -/
def extract_game_id (href : String) : Option String :=
  let trimmed := stripSlashChars (stripChars href.data)
  if trimmed = [] then none
  else
    let candidate := (trimmed.splitOn '-').getLastD []
    if candidate ≠ [] ∧ candidate.all isDigitChar then some (String.mk candidate)
    else none

/-- Identifier derivation as the claim reads: take the trailing path segment
of the trimmed link target (last slash-delimited segment), then the last
dash-delimited token of that segment; accept iff non-empty and all digits. -/
def extract_game_id_specReading (href : String) : Option String :=
  let trimmed := stripSlashChars (stripChars href.data)
  let segment := (trimmed.splitOn '/').getLastD []
  let candidate := (segment.splitOn '-').getLastD []
  if candidate ≠ [] ∧ candidate.all isDigitChar then some (String.mk candidate)
  else none

/-- Identifier derivation as amended: the candidate token is the last
dash-delimited token of the entire trimmed link target, not of its trailing
path segment only. -/
def extract_game_id_amendedSpec (href : String) : Option String :=
  let candidate := ((stripSlashChars (stripChars href.data)).splitOn '-').getLastD []
  if candidate ≠ [] ∧ candidate.all isDigitChar then some (String.mk candidate)
  else none

/-- C4 counterexample: on `"/a-b/123"` the code splits the whole trimmed
target on dashes, so the candidate is `"b/123"` and no reference is produced,
while the claim's trailing-path-segment reading accepts `"123"`. -/
theorem extract_game_id_claim_false :
    extract_game_id "/a-b/123" = none ∧
    extract_game_id_specReading "/a-b/123" = some "123" := by
  constructor <;> decide

/-- C4 amended: `extract_game_id` takes the last dash-delimited token of the
whole trimmed link target (so it coincides with the amended derivation on
every href), and the claim's concrete examples hold. -/
theorem extract_game_id_amended :
    (∀ href : String, extract_game_id href = extract_game_id_amendedSpec href) ∧
    extract_game_id "/game/lakers-celtics-0042400123/" = some "0042400123" ∧
    extract_game_id "/schedule" = none := by
  refine ⟨?_, by decide, by decide⟩
  intro href
  unfold extract_game_id extract_game_id_amendedSpec
  by_cases h : stripSlashChars (stripChars href.data) = []
  · rw [h]
    decide
  · rw [if_neg h]

/-- `parse_percent(value)`: strip whitespace, remove every percent sign
(`str.replace`), reject the empty and dash sentinels, parse the float, and
scale down values greater than one. -/
def parse_percent (value : String) : Option Rat :=
  let cleaned := (stripChars value.data).filter (fun c => c ≠ '%')
  if cleaned = [] ∨ cleaned = ['-', '-'] ∨ cleaned = ['-'] then none
  else
    match pyFloat (String.mk cleaned) with
    | none => none
    | some numeric => some (if numeric > 1 then numeric / 100 else numeric)

/-- Percentage parsing as the claim reads: strip surrounding whitespace and
one trailing percent sign if present, then proceed identically. -/
def parse_percent_specReading (value : String) : Option Rat :=
  let stripped := stripChars value.data
  let cleaned := if stripped.getLast? = some '%' then stripped.dropLast else stripped
  if cleaned = [] ∨ cleaned = ['-', '-'] ∨ cleaned = ['-'] then none
  else
    match pyFloat (String.mk cleaned) with
    | none => none
    | some numeric => some (if numeric > 1 then numeric / 100 else numeric)

/-- C5 counterexample: the code removes every percent sign, not only a
trailing one, so `"4%5"` parses as 45 and is scaled to 0.45, while the
claim's reading leaves `"4%5"` numerically unparseable. -/
theorem parse_percent_claim_false :
    parse_percent "4%5" = some (9 / 20) ∧
    parse_percent_specReading "4%5" = none := by
  constructor
  · simp +decide only [parse_percent, pyFloat, stripChars, isPySpace, isDigitChar, digitsVal,
      List.filter, List.dropWhile, List.takeWhile, List.reverse, List.foldl]
    rw [show '4'.toNat - 48 = 4 from by decide, show '5'.toNat - 48 = 5 from by decide]
    norm_num
  · simp +decide only [parse_percent_specReading, pyFloat]

/-- Removing every percent sign agrees with removing one trailing percent
sign whenever no percent sign occurs before the final character. -/
theorem filter_percent_eq_dropTrailing (l : List Char) (h : '%' ∉ l.dropLast) :
    l.filter (fun c => c ≠ '%') = (if l.getLast? = some '%' then l.dropLast else l) := by
  induction l using List.reverseRecOn with
  | nil => simp
  | append_singleton l c ih =>
    rw [List.dropLast_concat] at h
    rw [List.filter_append, List.getLast?_concat, List.dropLast_concat]
    have hl : ∀ a ∈ l, ¬ a = '%' := by
      intro a ha e
      subst e
      exact h ha
    have hfl : l.filter (fun c => c ≠ '%') = l :=
      List.filter_eq_self.mpr (fun a ha => decide_eq_true (hl a ha))
    rw [hfl]
    by_cases hc : c = '%'
    · subst hc
      rw [if_pos rfl]
      simp
    · rw [if_neg (by simpa using hc)]
      simp [hc]

/-- C5 amended: `parse_percent` removes every percent sign (not only a
trailing one); it agrees with the claim's reading on every cell whose
percent signs occur only in final position, and the claim's concrete
examples all hold: 45.2% becomes 0.452, 0.452 stays 0.452, a double dash is
unparseable, and 120 is scaled to 1.20 and passed through unclamped. -/
theorem parse_percent_amended :
    (∀ value : String, '%' ∉ (stripChars value.data).dropLast →
      parse_percent value = parse_percent_specReading value) ∧
    parse_percent "45.2%" = some (113 / 250) ∧
    parse_percent "0.452" = some (113 / 250) ∧
    parse_percent "--" = none ∧
    parse_percent "120" = some (6 / 5) := by
  refine ⟨?_, ?_, ?_, ?_, ?_⟩
  · intro value h
    unfold parse_percent parse_percent_specReading
    rw [filter_percent_eq_dropTrailing _ h]
  · simp +decide only [parse_percent, pyFloat, stripChars, isPySpace, isDigitChar, digitsVal,
      List.filter, List.dropWhile, List.takeWhile, List.reverse, List.foldl]
    rw [show '4'.toNat - 48 = 4 from by decide, show '5'.toNat - 48 = 5 from by decide,
      show '2'.toNat - 48 = 2 from by decide]
    norm_num
  · simp +decide only [parse_percent, pyFloat, stripChars, isPySpace, isDigitChar, digitsVal,
      List.filter, List.dropWhile, List.takeWhile, List.reverse, List.foldl]
    rw [show '0'.toNat - 48 = 0 from by decide, show '4'.toNat - 48 = 4 from by decide,
      show '5'.toNat - 48 = 5 from by decide, show '2'.toNat - 48 = 2 from by decide]
    norm_num
  · simp +decide only [parse_percent]
  · simp +decide only [parse_percent, pyFloat, stripChars, isPySpace, isDigitChar, digitsVal,
      List.filter, List.dropWhile, List.takeWhile, List.reverse, List.foldl]
    rw [show '1'.toNat - 48 = 1 from by decide, show '2'.toNat - 48 = 2 from by decide,
      show '0'.toNat - 48 = 0 from by decide]
    norm_num

/-- Witness: the agreement between code and amended reading at a concrete
percent cell. -/
theorem parse_percent_amended_witness :
    parse_percent "45.2%" = parse_percent_specReading "45.2%" :=
  parse_percent_amended.1 "45.2%" (by decide)

/-- The fixed team-name table `TEAM_NAME_TO_ABBR`, as an association list
(`dict.get` is exact-match lookup). -/
def TEAM_NAME_TO_ABBR : List (String × String) :=
  [("Atlanta Hawks", "ATL"), ("Boston Celtics", "BOS"), ("Brooklyn Nets", "BKN"),
   ("Charlotte Hornets", "CHA"), ("Chicago Bulls", "CHI"), ("Cleveland Cavaliers", "CLE"),
   ("Dallas Mavericks", "DAL"), ("Denver Nuggets", "DEN"), ("Detroit Pistons", "DET"),
   ("Golden State Warriors", "GSW"), ("Houston Rockets", "HOU"), ("Indiana Pacers", "IND"),
   ("LA Clippers", "LAC"), ("Los Angeles Lakers", "LAL"), ("Memphis Grizzlies", "MEM"),
   ("Miami Heat", "MIA"), ("Milwaukee Bucks", "MIL"), ("Minnesota Timberwolves", "MIN"),
   ("New Orleans Pelicans", "NOP"), ("New York Knicks", "NYK"), ("Oklahoma City Thunder", "OKC"),
   ("Orlando Magic", "ORL"), ("Philadelphia 76ers", "PHI"), ("Phoenix Suns", "PHX"),
   ("Portland Trail Blazers", "POR"), ("Sacramento Kings", "SAC"), ("San Antonio Spurs", "SAS"),
   ("Toronto Raptors", "TOR"), ("Utah Jazz", "UTA"), ("Washington Wizards", "WAS")]

/-- A qualifying-performance record (`TourDatePerformance`); dates are day
numbers, percentages exact rationals. -/
structure TourDatePerformance where
  season : String
  player_name : String
  team_abbr : String
  opponent_abbr : String
  game_id : String
  game_date : Int
  fgm : Int
  fga : Int
  fg_pct : Rat

/-- The `month` property: the made count read as a month. -/
def TourDatePerformance.month (p : TourDatePerformance) : Int := p.fgm

/-- The `day` property: the attempted count read as a day. -/
def TourDatePerformance.day (p : TourDatePerformance) : Int := p.fga

/-- The `is_valid_tour_date` property. -/
def TourDatePerformance.is_valid_tour_date (p : TourDatePerformance) : Bool :=
  validate_tour_date p.fgm p.fga p.fg_pct

/-- Discovery-time game reference (`GameMetadata`); the url field is
transport-level and not modelled. -/
structure GameMetadata where
  game_id : String
  game_date : Int

/-- A player table row as the extractor reads it: whether the row carries
the totals marker, the text of its player-name tag when one is found, and
the stripped texts of its td cells. -/
structure PlayerRow where
  totals : Bool
  nameTag : Option String
  cells : List String

/-- A team section of a box-score document: the stripped text of its h2
header when present, and the rows of its table body when a tbody exists. -/
structure TeamSection where
  header : Option String
  tbody : Option (List PlayerRow)

/-- An extracted shooting line of one player. -/
structure PlayerLine where
  player_name : String
  fgm : Int
  fga : Int
  fg_pct : Rat

/-- One iteration of the row loop of `parse_player_rows`: skip totals rows,
rows with fewer than five cells, rows without a name tag, rows whose counts
or percentage fail to parse, and zero-attempt rows. -/
def parseRow (row : PlayerRow) : Option PlayerLine :=
  if row.totals then none
  else if row.cells.length < 5 then none
  else
    match row.nameTag with
    | none => none
    | some player_name =>
      match pyInt (row.cells.getD 2 ""), pyInt (row.cells.getD 3 ""),
          parse_percent (row.cells.getD 4 "") with
      | some fgm, some fga, some fg_pct =>
          if fga = 0 then none else some ⟨player_name, fgm, fga, fg_pct⟩
      | _, _, _ => none

/-- `parse_player_rows(section)`: no tbody yields nothing; otherwise each
row is parsed and unparseable rows are skipped. -/
def parse_player_rows (s : TeamSection) : List PlayerLine :=
  match s.tbody with
  | none => []
  | some rows => rows.filterMap parseRow

/-- One iteration of the section loop of `scrape_game_box_score`: a section
with no header, an unrecognised team name, or no parseable player rows is
skipped; otherwise it resolves to its short code and its players. -/
def resolveTeamSection (sec : TeamSection) : Option (String × List PlayerLine) :=
  match sec.header with
  | none => none
  | some team_name =>
    match TEAM_NAME_TO_ABBR.lookup team_name with
    | none => none
    | some team_abbr =>
      if (parse_player_rows sec).isEmpty then none
      else some (team_abbr, parse_player_rows sec)

/-- `scrape_game_box_score` on an already-fetched document: resolve the
sections, stop when none survives, and emit each resolved team's players
with the other resolved team's code as opponent when exactly two survive,
and the `"TBD"` sentinel otherwise. -/
def scrape_game_box_score (season : String) (game : GameMetadata)
    (sections : List TeamSection) : List TourDatePerformance :=
  let teams := sections.filterMap resolveTeamSection
  if teams.length < 1 then []
  else
    teams.enum.flatMap (fun it =>
      let opponent_abbr := if teams.length = 2 then (teams.getD (1 - it.1) ("", [])).1 else "TBD"
      it.2.2.map (fun p =>
        ⟨season, p.player_name, it.2.1, opponent_abbr, game.game_id, game.game_date,
          p.fgm, p.fga, p.fg_pct⟩))

/-- C10: a section with no header, an unrecognised team label, or no
parseable player rows resolves to nothing, and when two sections are present
but only one resolves, its players are still emitted, with the literal
`"TBD"` opponent sentinel: pairing follows the resolved count, not the
section count. -/
theorem scrape_single_resolved_team :
    (∀ sec : TeamSection,
      (sec.header = none ∨
        (∃ n, sec.header = some n ∧ TEAM_NAME_TO_ABBR.lookup n = none) ∨
        parse_player_rows sec = []) →
      resolveTeamSection sec = none) ∧
    (∀ (season : String) (game : GameMetadata) (s1 s2 : TeamSection)
        (t : String × List PlayerLine),
      List.filterMap resolveTeamSection [s1, s2] = [t] →
      scrape_game_box_score season game [s1, s2] =
        t.2.map (fun p =>
          ⟨season, p.player_name, t.1, "TBD", game.game_id, game.game_date,
            p.fgm, p.fga, p.fg_pct⟩)) := by
  constructor
  · intro sec h
    rcases h with h | ⟨n, hn, hl⟩ | hp
    · simp [resolveTeamSection, h]
    · simp [resolveTeamSection, hn, hl]
    · unfold resolveTeamSection
      split
      · rfl
      · split
        · rfl
        · rw [hp]
          rfl
  · intro season game s1 s2 t hft
    unfold scrape_game_box_score
    rw [hft]
    simp [List.enum]

/-- A section that resolves: recognised team name, one parseable row. -/
def wit10SectionBOS : TeamSection :=
  ⟨some "Boston Celtics",
    some [⟨false, some "Player One", ["Player One", "20", "2", "5", "40.0"]⟩]⟩

/-- A section whose team label has no exact match in the lookup table. -/
def wit10SectionUnknown : TeamSection :=
  ⟨some "Unknown Team",
    some [⟨false, some "Player Two", ["Player Two", "20", "3", "7", "42.9"]⟩]⟩

/-- Witness: the single-resolved-team behaviour at a concrete two-section
document whose second section has an unrecognised label. -/
theorem scrape_single_resolved_team_witness :
    List.filterMap resolveTeamSection [wit10SectionBOS, wit10SectionUnknown] =
        [(resolveTeamSection wit10SectionBOS).getD ("", [])] ∧
    scrape_game_box_score "2025-26" ⟨"0042400123", 0⟩
        [wit10SectionBOS, wit10SectionUnknown] =
      ((resolveTeamSection wit10SectionBOS).getD ("", [])).2.map (fun p =>
        ⟨"2025-26", p.player_name, ((resolveTeamSection wit10SectionBOS).getD ("", [])).1,
          "TBD", "0042400123", 0, p.fgm, p.fga, p.fg_pct⟩) :=
  ⟨rfl, scrape_single_resolved_team.2 "2025-26" ⟨"0042400123", 0⟩
    wit10SectionBOS wit10SectionUnknown _ rfl⟩

/-- C6 counterexample: a document with two team sections present, of which
the second (a recognised team, but with no table body) yields no players:
the surviving team's player is emitted with the `"TBD"` sentinel rather
than the other section's code `"LAL"`. -/
theorem scrape_two_sections_claim_false :
    (scrape_game_box_score "2025-26" ⟨"0042400123", 0⟩
        [⟨some "Boston Celtics",
            some [⟨false, some "Player One", ["Player One", "20", "2", "5", "40.0"]⟩]⟩,
         ⟨some "Los Angeles Lakers", none⟩]).map TourDatePerformance.opponent_abbr =
      ["TBD"] ∧
    TEAM_NAME_TO_ABBR.lookup "Los Angeles Lakers" = some "LAL" ∧
    ("TBD" : String) ≠ "LAL" :=
  ⟨rfl, rfl, by decide⟩

/-- C6 amended: opponent assignment is keyed on the resolved sections: with
exactly two resolved teams each side's players get the other's code; with
exactly one resolved team the `"TBD"` sentinel; an empty document yields
nothing, as does any document in which no section resolves. -/
theorem scrape_opponent_assignment :
    (∀ (season : String) (game : GameMetadata) (sections : List TeamSection)
        (a b : String × List PlayerLine),
      sections.filterMap resolveTeamSection = [a, b] →
      scrape_game_box_score season game sections =
        a.2.map (fun p => ⟨season, p.player_name, a.1, b.1, game.game_id, game.game_date,
          p.fgm, p.fga, p.fg_pct⟩) ++
        b.2.map (fun p => ⟨season, p.player_name, b.1, a.1, game.game_id, game.game_date,
          p.fgm, p.fga, p.fg_pct⟩)) ∧
    (∀ (season : String) (game : GameMetadata) (sections : List TeamSection)
        (a : String × List PlayerLine),
      sections.filterMap resolveTeamSection = [a] →
      scrape_game_box_score season game sections =
        a.2.map (fun p => ⟨season, p.player_name, a.1, "TBD", game.game_id, game.game_date,
          p.fgm, p.fga, p.fg_pct⟩)) ∧
    (∀ (season : String) (game : GameMetadata),
      scrape_game_box_score season game [] = []) ∧
    (∀ (season : String) (game : GameMetadata) (sections : List TeamSection),
      sections.filterMap resolveTeamSection = [] →
      scrape_game_box_score season game sections = []) := by
  refine ⟨?_, ?_, ?_, ?_⟩
  · intro season game sections a b h
    unfold scrape_game_box_score
    rw [h]
    simp [List.enum, List.enumFrom, List.getD]
  · intro season game sections a h
    unfold scrape_game_box_score
    rw [h]
    simp [List.enum]
  · intro season game
    rfl
  · intro season game sections h
    unfold scrape_game_box_score
    rw [h]
    rfl

/-- A resolving Boston section for the two-team witness. -/
def wit6SectionBOS : TeamSection :=
  ⟨some "Boston Celtics",
    some [⟨false, some "Player One", ["Player One", "20", "2", "5", "40.0"]⟩]⟩

/-- A resolving Lakers section for the two-team witness. -/
def wit6SectionLAL : TeamSection :=
  ⟨some "Los Angeles Lakers",
    some [⟨false, some "Player Two", ["Player Two", "21", "3", "7", "42.9"]⟩]⟩

/-- The first resolved team of the two-team witness document. -/
def wit6A : String × List PlayerLine := (resolveTeamSection wit6SectionBOS).getD ("", [])

/-- The second resolved team of the two-team witness document. -/
def wit6B : String × List PlayerLine := (resolveTeamSection wit6SectionLAL).getD ("", [])

/-- Witness: the two-resolved-team pairing at a concrete document. -/
theorem scrape_opponent_assignment_witness :
    List.filterMap resolveTeamSection [wit6SectionBOS, wit6SectionLAL] = [wit6A, wit6B] ∧
    scrape_game_box_score "2025-26" ⟨"0042400123", 0⟩ [wit6SectionBOS, wit6SectionLAL] =
      wit6A.2.map (fun p => ⟨"2025-26", p.player_name, wit6A.1, wit6B.1, "0042400123", 0,
        p.fgm, p.fga, p.fg_pct⟩) ++
      wit6B.2.map (fun p => ⟨"2025-26", p.player_name, wit6B.1, wit6A.1, "0042400123", 0,
        p.fgm, p.fga, p.fg_pct⟩) :=
  ⟨rfl, scrape_opponent_assignment.1 "2025-26" ⟨"0042400123", 0⟩
    [wit6SectionBOS, wit6SectionLAL] wit6A wit6B rfl⟩

/-- The natural-key projection (season, gameId, playerName). -/
def keyOf (r : TourDatePerformance) : String × String × String :=
  (r.season, r.game_id, r.player_name)

/-- The ON CONFLICT comparison on the natural key. -/
def sameKeyb (a b : TourDatePerformance) : Bool :=
  a.season = b.season ∧ a.game_id = b.game_id ∧ a.player_name = b.player_name

/-- Update the columns of the DO UPDATE clause, leaving the rest in place. -/
def setStats (r : TourDatePerformance) (fgm fga : Int) (fg_pct : Rat) : TourDatePerformance :=
  ⟨r.season, r.player_name, r.team_abbr, r.opponent_abbr, r.game_id, r.game_date,
    fgm, fga, fg_pct⟩

/-- One row write of the batch: INSERT ... ON CONFLICT(season, game_id,
player_name) DO UPDATE SET fgm, fga, fg_pct. -/
def upsertRow (db : List TourDatePerformance) (v : TourDatePerformance) :
    List TourDatePerformance :=
  if db.any (fun r => sameKeyb v r) then
    db.map (fun r => if sameKeyb v r then setStats r v.fgm v.fga v.fg_pct else r)
  else db ++ [v]

/-- `insert_performances(conn, performances)`: filter to valid tour dates,
write each remaining row with upsert semantics in order, and return the
count of rows written. -/
def insert_performances (db : List TourDatePerformance)
    (performances : List TourDatePerformance) : List TourDatePerformance × Nat :=
  let values := performances.filter (fun p => p.is_valid_tour_date)
  (values.foldl upsertRow db, values.length)

/-- A store has unique keys when no two rows share the natural key. -/
def UniqueKeys (db : List TourDatePerformance) : Prop :=
  db.Pairwise (fun a b => ¬ sameKeyb a b = true)

/-- Apply a sequence of `insert_performances` batches to a store. -/
def applyBatches (db : List TourDatePerformance) :
    List (List TourDatePerformance) → List TourDatePerformance
  | [] => db
  | b :: bs => applyBatches (insert_performances db b).1 bs

/-- The key comparison is the equality of key projections. -/
theorem sameKeyb_iff (a b : TourDatePerformance) : sameKeyb a b = true ↔ keyOf a = keyOf b := by
  simp [sameKeyb, keyOf, Prod.ext_iff]

/-- The DO UPDATE clause does not touch the key columns. -/
theorem keyOf_setStats (r : TourDatePerformance) (m a : Int) (p : Rat) :
    keyOf (setStats r m a p) = keyOf r := rfl

/-- The row rewriting of an upsert does not change any row's key. -/
theorem keyOf_upsertFun (v r : TourDatePerformance) :
    keyOf (if sameKeyb v r then setStats r v.fgm v.fga v.fg_pct else r) = keyOf r := by
  split <;> rfl

/-- Upserting one row preserves key uniqueness of the store. -/
theorem upsertRow_unique {db : List TourDatePerformance} (v : TourDatePerformance)
    (h : UniqueKeys db) : UniqueKeys (upsertRow db v) := by
  unfold upsertRow
  split
  · refine h.map _ ?_
    intro a b hab hk
    rw [sameKeyb_iff, keyOf_upsertFun, keyOf_upsertFun, ← sameKeyb_iff] at hk
    exact hab hk
  · rename_i hany
    rw [List.any_eq_true] at hany
    push_neg at hany
    rw [UniqueKeys, List.pairwise_append]
    refine ⟨h, List.pairwise_singleton _ _, ?_⟩
    intro a ha b hb
    rw [List.mem_singleton] at hb
    subst hb
    intro hk
    apply hany a ha
    rw [sameKeyb_iff] at hk ⊢
    exact hk.symm

/-- After an upsert the written row's key is present in the store. -/
theorem upsertRow_hasKey (db : List TourDatePerformance) (v : TourDatePerformance) :
    (upsertRow db v).any (fun r => sameKeyb v r) = true := by
  unfold upsertRow
  split
  · rename_i hany
    rw [List.any_eq_true] at hany ⊢
    obtain ⟨r, hr, hk⟩ := hany
    refine ⟨if sameKeyb v r then setStats r v.fgm v.fga v.fg_pct else r,
      List.mem_map_of_mem _ hr, ?_⟩
    rw [sameKeyb_iff] at hk ⊢
    rw [keyOf_upsertFun]
    exact hk
  · rw [List.any_eq_true]
    exact ⟨v, by simp, by rw [sameKeyb_iff]⟩

/-- In a store with unique keys, a present key matches exactly one row. -/
theorem unique_filter_length {db : List TourDatePerformance} (q : TourDatePerformance)
    (h : UniqueKeys db) (hk : db.any (fun r => sameKeyb q r) = true) :
    (db.filter (fun r => sameKeyb q r)).length = 1 := by
  induction db with
  | nil => simp at hk
  | cons a t ih =>
    rw [UniqueKeys, List.pairwise_cons] at h
    rw [List.any_cons] at hk
    by_cases hqa : sameKeyb q a = true
    · rw [List.filter_cons_of_pos hqa]
      have ht : t.filter (fun r => sameKeyb q r) = [] := by
        rw [List.filter_eq_nil_iff]
        intro b hb hqb
        apply h.1 b hb
        rw [sameKeyb_iff] at hqa hqb ⊢
        rw [← hqa]
        exact hqb
      rw [ht]
      rfl
    · rw [List.filter_cons_of_neg hqa]
      exact ih h.2 (by
        rcases (Bool.or_eq_true _ _).mp hk with hl | hr
        · exact absurd hl hqa
        · exact hr)

/-- Every row matching the upserted key carries the upserted counts. -/
theorem upsertRow_stats (db : List TourDatePerformance) (q : TourDatePerformance) :
    ∀ r ∈ upsertRow db q, sameKeyb q r = true →
      r.fgm = q.fgm ∧ r.fga = q.fga ∧ r.fg_pct = q.fg_pct := by
  intro r hr hk
  unfold upsertRow at hr
  split at hr
  · rw [List.mem_map] at hr
    obtain ⟨r0, hr0, he⟩ := hr
    by_cases h0 : sameKeyb q r0 = true
    · rw [if_pos h0] at he
      subst he
      exact ⟨rfl, rfl, rfl⟩
    · rw [if_neg h0] at he
      subst he
      exact absurd hk h0
  · rename_i hany
    rw [List.mem_append] at hr
    rcases hr with hr | hr
    · exact absurd (List.any_eq_true.mpr ⟨r, hr, hk⟩) hany
    · rw [List.mem_singleton] at hr
      subst hr
      exact ⟨rfl, rfl, rfl⟩

/-- Writing a batch row by row preserves key uniqueness. -/
theorem foldl_upsertRow_unique (vs : List TourDatePerformance) :
    ∀ db : List TourDatePerformance, UniqueKeys db → UniqueKeys (vs.foldl upsertRow db) := by
  induction vs with
  | nil => intro db h; exact h
  | cons v vs ih =>
    intro db h
    exact ih _ (upsertRow_unique v h)

/-- `insert_performances` preserves key uniqueness. -/
theorem insert_performances_preserves_unique (db ps : List TourDatePerformance)
    (h : UniqueKeys db) : UniqueKeys (insert_performances db ps).1 :=
  foldl_upsertRow_unique _ db h

/-- Any sequence of batches preserves key uniqueness. -/
theorem applyBatches_unique (batches : List (List TourDatePerformance)) :
    ∀ db : List TourDatePerformance, UniqueKeys db → UniqueKeys (applyBatches db batches) := by
  induction batches with
  | nil => intro db h; exact h
  | cons b bs ih =>
    intro db h
    exact ih _ (insert_performances_preserves_unique db b h)

/-- A one-row batch of a valid performance is a single upsert. -/
theorem insert_performances_single (db : List TourDatePerformance)
    (p : TourDatePerformance) (hp : p.is_valid_tour_date = true) :
    (insert_performances db [p]).1 = upsertRow db p := by
  unfold insert_performances
  rw [List.filter_cons_of_pos hp]
  rfl

/-- C2: upsert semantics on the natural key: any sequence of batches keeps
the store free of duplicate keys, and writing an eligible performance whose
key is already stored leaves exactly one row for that key, carrying the
later write's counts and percentage. -/
theorem insert_performances_upsert_spec :
    (∀ (db : List TourDatePerformance) (batches : List (List TourDatePerformance)),
      UniqueKeys db → UniqueKeys (applyBatches db batches)) ∧
    (∀ (db : List TourDatePerformance) (p q : TourDatePerformance),
      UniqueKeys db → sameKeyb q p = true →
      p.is_valid_tour_date = true → q.is_valid_tour_date = true →
      (((insert_performances (insert_performances db [p]).1 [q]).1.filter
          (fun r => sameKeyb q r)).length = 1 ∧
        ∀ r ∈ (insert_performances (insert_performances db [p]).1 [q]).1,
          sameKeyb q r = true →
          r.fgm = q.fgm ∧ r.fga = q.fga ∧ r.fg_pct = q.fg_pct)) := by
  constructor
  · intro db batches h
    exact applyBatches_unique batches db h
  · intro db p q hdb hpq hp hq
    rw [insert_performances_single db p hp,
      insert_performances_single (upsertRow db p) q hq]
    have h1 : UniqueKeys (upsertRow db p) := upsertRow_unique p hdb
    have h2 : UniqueKeys (upsertRow (upsertRow db p) q) := upsertRow_unique q h1
    refine ⟨unique_filter_length q h2 (upsertRow_hasKey _ q), upsertRow_stats _ q⟩

/-- An eligible performance for the concrete upsert witness. -/
def wit2P : TourDatePerformance :=
  ⟨"2025-26", "Player One", "BOS", "LAL", "0042400123", 0, 2, 5, 2 / 5⟩

/-- A second eligible performance with the same key and different counts. -/
def wit2Q : TourDatePerformance :=
  ⟨"2025-26", "Player One", "BOS", "LAL", "0042400123", 0, 3, 7, 3 / 7⟩

/-- Witness: upserting the same key twice leaves exactly one row. -/
theorem insert_performances_upsert_spec_witness :
    ((insert_performances (insert_performances [] [wit2P]).1 [wit2Q]).1.filter
        (fun r => sameKeyb wit2Q r)).length = 1 :=
  (insert_performances_upsert_spec.2 [] wit2P wit2Q List.Pairwise.nil (by decide)
    (by norm_num [TourDatePerformance.is_valid_tour_date, wit2P, validate_tour_date,
      MONTH_DAY_LIMITS])
    (by norm_num [TourDatePerformance.is_valid_tour_date, wit2Q, validate_tour_date,
      MONTH_DAY_LIMITS])).1

/-- Upserting a valid row into an all-valid store keeps every row valid. -/
theorem upsertRow_all_valid {db : List TourDatePerformance} {v : TourDatePerformance}
    (h : ∀ r ∈ db, r.is_valid_tour_date = true) (hv : v.is_valid_tour_date = true) :
    ∀ r ∈ upsertRow db v, r.is_valid_tour_date = true := by
  intro r hr
  unfold upsertRow at hr
  split at hr
  · rw [List.mem_map] at hr
    obtain ⟨r0, hr0, he⟩ := hr
    split at he
    · subst he
      exact hv
    · subst he
      exact h r0 hr0
  · rw [List.mem_append] at hr
    rcases hr with hr | hr
    · exact h r hr
    · rw [List.mem_singleton] at hr
      subst hr
      exact hv

/-- Folding valid writes over an all-valid store keeps every row valid. -/
theorem foldl_upsertRow_all_valid (vs : List TourDatePerformance) :
    ∀ db : List TourDatePerformance, (∀ r ∈ db, r.is_valid_tour_date = true) →
      (∀ v ∈ vs, v.is_valid_tour_date = true) →
      ∀ r ∈ vs.foldl upsertRow db, r.is_valid_tour_date = true := by
  induction vs with
  | nil => intro db h _; exact h
  | cons v vs ih =>
    intro db h hv
    exact ih _ (upsertRow_all_valid h (hv v (by simp)))
      (fun w hw => hv w (by simp [hw]))

/-- C3: `insert_performances` re-filters its batch through the eligibility
rule, so starting from a store of eligible rows, any sequence of batches —
eligible or not — leaves only rows satisfying the eligibility rule. -/
theorem insert_performances_store_valid :
    ∀ (db : List TourDatePerformance),
      (∀ r ∈ db, r.is_valid_tour_date = true) →
      ∀ batches : List (List TourDatePerformance),
        ∀ r ∈ applyBatches db batches, r.is_valid_tour_date = true := by
  intro db hdb batches
  induction batches generalizing db with
  | nil => exact hdb
  | cons b bs ih =>
    show ∀ r ∈ applyBatches (insert_performances db b).1 bs, r.is_valid_tour_date = true
    refine ih _ ?_
    unfold insert_performances
    exact foldl_upsertRow_all_valid _ db hdb
      (fun v hv => List.of_mem_filter hv)

/-- An ineligible performance (zero attempts) for the filtering witness. -/
def wit3Bad : TourDatePerformance :=
  ⟨"2025-26", "Player Zero", "BOS", "LAL", "0042400124", 0, 0, 0, 0⟩

/-- An eligible performance for the filtering witness. -/
def wit3Good : TourDatePerformance :=
  ⟨"2025-26", "Player Three", "BOS", "LAL", "0042400125", 0, 3, 7, 3 / 7⟩

/-- Witness: after ingesting a batch with an ineligible row, every stored
row is still eligible. -/
theorem insert_performances_store_valid_witness :
    (applyBatches [] [[wit3Bad, wit3Good]]).all
      (fun r => r.is_valid_tour_date) = true :=
  List.all_eq_true.mpr
    (insert_performances_store_valid [] (by simp) [[wit3Bad, wit3Good]])

/-- Modelled from the spec: the transactional boundary of the batch write.
The `with conn` block of `insert_performances` delegates atomicity to the
store collaborator (the sqlite3 connection context manager), whose commit
and rollback behaviour is not part of the repository sources.  Following
the spec, the whole filtered batch is one atomic unit: if any row write
fails (failure abstracted as a predicate on rows) the transaction rolls
back and the store is returned unchanged; otherwise every row is written
and the count of written rows is returned. -/
def insert_performances_tx (db performances : List TourDatePerformance)
    (writeFails : TourDatePerformance → Bool) :
    Except (List TourDatePerformance) (List TourDatePerformance × Nat) :=
  let values := performances.filter (fun p => p.is_valid_tour_date)
  if values.any writeFails then Except.error db
  else Except.ok (values.foldl upsertRow db, values.length)

/-- C9: the batch write is all-or-nothing: each call either rolls back to
the unchanged store or commits exactly the result of applying the whole
filtered batch, returning the count of rows written; failure of any row
write forces the rollback branch and a fully successful batch forces the
commit branch. -/
theorem insert_performances_atomic :
    ∀ (db performances : List TourDatePerformance)
      (writeFails : TourDatePerformance → Bool),
      (insert_performances_tx db performances writeFails = Except.error db ∨
        insert_performances_tx db performances writeFails =
          Except.ok (insert_performances db performances)) ∧
      ((performances.filter (fun p => p.is_valid_tour_date)).any writeFails = true →
        insert_performances_tx db performances writeFails = Except.error db) ∧
      ((performances.filter (fun p => p.is_valid_tour_date)).any writeFails = false →
        insert_performances_tx db performances writeFails =
          Except.ok (insert_performances db performances)) := by
  intro db performances writeFails
  unfold insert_performances_tx insert_performances
  by_cases h : (performances.filter (fun p => p.is_valid_tour_date)).any writeFails = true
  · rw [if_pos h]
    exact ⟨Or.inl rfl, fun _ => rfl, fun hf => absurd h (by simp [hf])⟩
  · rw [if_neg h]
    exact ⟨Or.inr rfl, fun ht => absurd ht h, fun _ => rfl⟩

/-- An eligible performance for the atomicity witness. -/
def wit9P : TourDatePerformance :=
  ⟨"2025-26", "Player Nine", "BOS", "LAL", "0042400126", 0, 4, 9, 1 / 3⟩

/-- Witness: a failing write rolls the whole batch back, a fully successful
one commits it. -/
theorem insert_performances_atomic_witness :
    insert_performances_tx [] [wit9P] (fun _ => true) = Except.error [] ∧
    insert_performances_tx [] [wit9P] (fun _ => false) =
      Except.ok (insert_performances [] [wit9P]) := by
  have hv : wit9P.is_valid_tour_date = true := by
    norm_num [TourDatePerformance.is_valid_tour_date, wit9P, validate_tour_date,
      MONTH_DAY_LIMITS]
  exact ⟨(insert_performances_atomic [] [wit9P] (fun _ => true)).2.1 (by simp [hv]),
    (insert_performances_atomic [] [wit9P] (fun _ => false)).2.2 (by simp)⟩

/-- The scan environment: per-day schedule extraction results and per-game
box-score extraction results (the season argument is carried by the
box-score function), each either a payload or a transport error. -/
structure ScanEnv where
  schedule : Int → Except Unit (List String)
  boxScore : String → Except Unit (List TourDatePerformance)

/-- One fetch attempt of a scan: a schedule request for a calendar day or a
box-score request for a game identifier. -/
inductive FetchEvent where
  | sched (day : Int)
  | box (gameId : String)
deriving DecidableEq

/-- The schedule day of an event, when it is a schedule request. -/
def schedDay : FetchEvent → Option Int
  | FetchEvent.sched d => some d
  | FetchEvent.box _ => none

/-- The inner game loop of one scanned day: skip identifiers already in the
seen-set; otherwise add the identifier to the seen-set and attempt the
box-score fetch once, emitting its performances on success and nothing on a
transport failure.  Returns the fetch trace, the grown seen-set and the
emitted performances. -/
def processGames (env : ScanEnv) :
    List String → List String → List FetchEvent × List String × List TourDatePerformance
  | [], seen => ([], seen, [])
  | g :: gs, seen =>
    if g ∈ seen then processGames env gs seen
    else
      match env.boxScore g with
      | Except.ok perfs =>
        let rest := processGames env gs (g :: seen)
        (FetchEvent.box g :: rest.1, rest.2.1, perfs ++ rest.2.2)
      | Except.error _ =>
        let rest := processGames env gs (g :: seen)
        (FetchEvent.box g :: rest.1, rest.2.1, rest.2.2)

/-- The day loop of `fetch_box_scores_for_range`: while the current day is
no later than the end day, attempt the day's schedule fetch once (a failure
skips the whole day) and process the day's games, then advance one day. -/
def scanLoop (env : ScanEnv) (untilDay current : Int) (seen : List String) :
    List FetchEvent × List String × List TourDatePerformance :=
  if _h : current ≤ untilDay then
    match env.schedule current with
    | Except.error _ =>
      let rest := scanLoop env untilDay (current + 1) seen
      (FetchEvent.sched current :: rest.1, rest.2.1, rest.2.2)
    | Except.ok games =>
      let day := processGames env games seen
      let rest := scanLoop env untilDay (current + 1) day.2.1
      (FetchEvent.sched current :: (day.1 ++ rest.1), rest.2.1, day.2.2 ++ rest.2.2)
  else ([], seen, [])
termination_by (untilDay + 1 - current).toNat
decreasing_by all_goals (simp_wf; omega)

/-- `fetch_box_scores_for_range(season, since, until, processed_game_ids)`,
instrumented with its trace of fetch attempts: the first component lists
every schedule and box-score request made, the second is the final
seen-set, the third the emitted performances. -/
def fetch_box_scores_for_range (env : ScanEnv) (since untilDay : Int)
    (processed_game_ids : List String) :
    List FetchEvent × List String × List TourDatePerformance :=
  scanLoop env untilDay since processed_game_ids

/-- The ascending list of days of the inclusive range. -/
def rangeDays (current untilDay : Int) : List Int :=
  if current ≤ untilDay then current :: rangeDays (current + 1) untilDay else []
termination_by (untilDay + 1 - current).toNat
decreasing_by all_goals (simp_wf; omega)

/-- The game loop only grows the seen-set. -/
theorem processGames_seen_mono (env : ScanEnv) :
    ∀ (gs seen : List String), seen ⊆ (processGames env gs seen).2.1 := by
  intro gs
  induction gs with
  | nil =>
    intro seen x hx
    exact hx
  | cons g gs ih =>
    intro seen
    unfold processGames
    split
    · exact ih seen
    · split
      · exact fun x hx => ih (g :: seen) (List.mem_cons_of_mem g hx)
      · exact fun x hx => ih (g :: seen) (List.mem_cons_of_mem g hx)

/-- A box fetch in the game loop happens only for an identifier that was
not yet seen, and that identifier is in the seen-set afterwards. -/
theorem processGames_box_mem (env : ScanEnv) :
    ∀ (gs seen : List String) (g : String),
      FetchEvent.box g ∈ (processGames env gs seen).1 →
      g ∉ seen ∧ g ∈ (processGames env gs seen).2.1 := by
  intro gs
  induction gs with
  | nil =>
    intro seen g hg
    simp [processGames] at hg
  | cons g' gs ih =>
    intro seen g
    unfold processGames
    split
    · exact ih seen g
    · rename_i hnot
      split
      · intro hg
        rcases List.mem_cons.mp hg with he | ht
        · have e : g = g' := by injection he
          subst e
          exact ⟨hnot, processGames_seen_mono env gs _ (List.mem_cons_self _ seen)⟩
        · obtain ⟨hn, hm⟩ := ih (g' :: seen) g ht
          exact ⟨fun hs => hn (List.mem_cons_of_mem g' hs), hm⟩
      · intro hg
        rcases List.mem_cons.mp hg with he | ht
        · have e : g = g' := by injection he
          subst e
          exact ⟨hnot, processGames_seen_mono env gs _ (List.mem_cons_self _ seen)⟩
        · obtain ⟨hn, hm⟩ := ih (g' :: seen) g ht
          exact ⟨fun hs => hn (List.mem_cons_of_mem g' hs), hm⟩

/-- Each game identifier is box-fetched at most once within one day. -/
theorem processGames_box_count (env : ScanEnv) :
    ∀ (gs seen : List String) (g : String),
      (processGames env gs seen).1.count (FetchEvent.box g) ≤ 1 := by
  intro gs
  induction gs with
  | nil =>
    intro seen g
    simp [processGames]
  | cons g' gs ih =>
    intro seen g
    unfold processGames
    split
    · exact ih seen g
    · have hrest : FetchEvent.box g' ∉ (processGames env gs (g' :: seen)).1 := by
        intro hmem
        exact (processGames_box_mem env gs (g' :: seen) g' hmem).1 (List.mem_cons_self g' seen)
      split
      · rw [List.count_cons]
        by_cases he : g = g'
        · subst he
          rw [List.count_eq_zero.mpr hrest]
          simp
        · have : (FetchEvent.box g' == FetchEvent.box g) = false := by
            simp [he]
            exact fun e => he e.symm
          rw [this]
          simpa using ih (g' :: seen) g
      · rw [List.count_cons]
        by_cases he : g = g'
        · subst he
          rw [List.count_eq_zero.mpr hrest]
          simp
        · have : (FetchEvent.box g' == FetchEvent.box g) = false := by
            simp [he]
            exact fun e => he e.symm
          rw [this]
          simpa using ih (g' :: seen) g

/-- The game loop makes no schedule requests. -/
theorem processGames_no_sched (env : ScanEnv) :
    ∀ (gs seen : List String) (d : Int),
      FetchEvent.sched d ∉ (processGames env gs seen).1 := by
  intro gs
  induction gs with
  | nil =>
    intro seen d
    simp [processGames]
  | cons g' gs ih =>
    intro seen d
    unfold processGames
    split
    · exact ih seen d
    · split
      · intro hm
        rcases List.mem_cons.mp hm with he | ht
        · cases he
        · exact ih (g' :: seen) d ht
      · intro hm
        rcases List.mem_cons.mp hm with he | ht
        · cases he
        · exact ih (g' :: seen) d ht

/-- An out-of-range start returns immediately with nothing fetched. -/
theorem scanLoop_out_of_range (env : ScanEnv) (u c : Int) (seen : List String)
    (h : ¬ c ≤ u) : scanLoop env u c seen = ([], seen, []) := by
  rw [scanLoop, dif_neg h]

/-- The day loop only grows the seen-set. -/
theorem scanLoop_seen_mono (env : ScanEnv) (u : Int) :
    ∀ (c : Int) (seen : List String), seen ⊆ (scanLoop env u c seen).2.1 := by
  intro c seen
  induction c, seen using scanLoop.induct env u with
  | case1 c seen h e sch ih =>
    rw [scanLoop, dif_pos h, sch]
    exact fun x hx => ih hx
  | case2 c seen h games sch day =>
    rename_i ih
    rw [scanLoop, dif_pos h, sch]
    exact fun x hx => ih (processGames_seen_mono env games seen hx)
  | case3 c seen h =>
    rw [scanLoop, dif_neg h]
    exact fun x hx => hx

/-- A box fetch during the scan happens only for an identifier outside the
seen-set at the start of its day, and that identifier is in the final
seen-set. -/
theorem scanLoop_box_mem (env : ScanEnv) (u : Int) :
    ∀ (c : Int) (seen : List String) (g : String),
      FetchEvent.box g ∈ (scanLoop env u c seen).1 →
      g ∉ seen ∧ g ∈ (scanLoop env u c seen).2.1 := by
  intro c seen
  induction c, seen using scanLoop.induct env u with
  | case1 c seen h e sch ih =>
    intro g hg
    rw [scanLoop, dif_pos h, sch] at hg ⊢
    rcases List.mem_cons.mp hg with he | ht
    · exact absurd he (by simp)
    · exact ih g ht
  | case2 c seen h games sch day ih =>
    intro g hg
    rw [scanLoop, dif_pos h, sch] at hg ⊢
    rcases List.mem_cons.mp hg with he | ht
    · exact absurd he (by simp)
    · rcases List.mem_append.mp ht with hd | hr
      · obtain ⟨hn, hm⟩ := processGames_box_mem env games seen g hd
        exact ⟨hn, scanLoop_seen_mono env u _ _ hm⟩
      · obtain ⟨hn, hm⟩ := ih g hr
        exact ⟨fun hs => hn (processGames_seen_mono env games seen hs), hm⟩
  | case3 c seen h =>
    intro g hg
    rw [scanLoop, dif_neg h] at hg
    simp at hg

/-- Each game identifier is box-fetched at most once during a whole scan. -/
theorem scanLoop_box_count (env : ScanEnv) (u : Int) :
    ∀ (c : Int) (seen : List String) (g : String),
      (scanLoop env u c seen).1.count (FetchEvent.box g) ≤ 1 := by
  intro c seen
  induction c, seen using scanLoop.induct env u with
  | case1 c seen h e sch ih =>
    intro g
    rw [scanLoop, dif_pos h, sch]
    rw [List.count_cons]
    have : (FetchEvent.sched c == FetchEvent.box g) = false := by simp
    rw [this]
    simpa using ih g
  | case2 c seen h games sch day ih =>
    intro g
    rw [scanLoop, dif_pos h, sch]
    rw [List.count_cons]
    have hhead : (FetchEvent.sched c == FetchEvent.box g) = false := by simp
    rw [hhead, List.count_append]
    by_cases hd : FetchEvent.box g ∈ day.1
    · have hseen : g ∈ day.2.1 :=
        (processGames_box_mem env games seen g hd).2
      have hrest : FetchEvent.box g ∉ (scanLoop env u (c + 1) day.2.1).1 := by
        intro hmem
        exact (scanLoop_box_mem env u (c + 1) day.2.1 g hmem).1 hseen
      rw [List.count_eq_zero.mpr hrest]
      simpa using processGames_box_count env games seen g
    · rw [List.count_eq_zero.mpr hd]
      simpa using ih g
  | case3 c seen h =>
    intro g
    rw [scanLoop, dif_neg h]
    simp

/-- Each in-range day receives exactly one schedule fetch attempt, each
out-of-range day none. -/
theorem scanLoop_sched_count (env : ScanEnv) (u : Int) :
    ∀ (c : Int) (seen : List String) (d : Int),
      (scanLoop env u c seen).1.count (FetchEvent.sched d) =
        if c ≤ d ∧ d ≤ u then 1 else 0 := by
  intro c seen
  induction c, seen using scanLoop.induct env u with
  | case1 c seen h e sch ih =>
    intro d
    rw [scanLoop, dif_pos h, sch]
    rw [List.count_cons, ih d]
    rcases eq_or_ne c d with rfl | hne
    · rw [beq_self_eq_true, if_neg (by omega : ¬ (c + 1 ≤ c ∧ c ≤ u))]
      simp [h]
    · have hb : (FetchEvent.sched c == FetchEvent.sched d) = false := by
        simp only [beq_eq_false_iff_ne, ne_eq, FetchEvent.sched.injEq]
        exact hne
      rw [hb]
      have heq : (c + 1 ≤ d ∧ d ≤ u) = (c ≤ d ∧ d ≤ u) := by
        apply propext
        constructor
        · exact fun hx => ⟨by omega, hx.2⟩
        · exact fun hx => ⟨by omega, hx.2⟩
      simp [heq]
  | case2 c seen h games sch day ih =>
    intro d
    rw [scanLoop, dif_pos h, sch]
    rw [List.count_cons, List.count_append,
      List.count_eq_zero.mpr (processGames_no_sched env games seen d), ih d]
    rcases eq_or_ne c d with rfl | hne
    · rw [beq_self_eq_true, if_neg (by omega : ¬ (c + 1 ≤ c ∧ c ≤ u))]
      simp [h]
    · have hb : (FetchEvent.sched c == FetchEvent.sched d) = false := by
        simp only [beq_eq_false_iff_ne, ne_eq, FetchEvent.sched.injEq]
        exact hne
      rw [hb]
      have heq : (c + 1 ≤ d ∧ d ≤ u) = (c ≤ d ∧ d ≤ u) := by
        apply propext
        constructor
        · exact fun hx => ⟨by omega, hx.2⟩
        · exact fun hx => ⟨by omega, hx.2⟩
      simp [heq]
  | case3 c seen h =>
    intro d
    rw [scanLoop, dif_neg h]
    rw [if_neg (by omega : ¬ (c ≤ d ∧ d ≤ u))]
    rfl

/-- The schedule-fetch trace of a scan is exactly the ascending day range. -/
theorem scanLoop_sched_trace (env : ScanEnv) (u : Int) :
    ∀ (c : Int) (seen : List String),
      (scanLoop env u c seen).1.filterMap schedDay = rangeDays c u := by
  intro c seen
  induction c, seen using scanLoop.induct env u with
  | case1 c seen h e sch ih =>
    rw [scanLoop, dif_pos h, sch]
    rw [List.filterMap_cons]
    simp only [schedDay]
    rw [ih]
    conv_rhs => rw [rangeDays]
    rw [if_pos h]
  | case2 c seen h games sch day ih =>
    rw [scanLoop, dif_pos h, sch]
    rw [List.filterMap_cons]
    simp only [schedDay]
    rw [List.filterMap_append]
    have hday : day.1.filterMap schedDay = [] := by
      rw [List.filterMap_eq_nil_iff]
      intro e he
      cases e with
      | sched d => exact absurd he (processGames_no_sched env games seen d)
      | box g => rfl
    rw [hday, ih]
    conv_rhs => rw [rangeDays]
    rw [if_pos h]
    rfl
  | case3 c seen h =>
    rw [scanLoop, dif_neg h, rangeDays, if_neg h]
    rfl

/-- Membership in the day range is exactly the inclusive interval. -/
theorem mem_rangeDays (u : Int) : ∀ (c d : Int),
    d ∈ rangeDays c u ↔ (c ≤ d ∧ d ≤ u) := by
  have H : ∀ (n : Nat) (c : Int), (u + 1 - c).toNat = n →
      ∀ d, d ∈ rangeDays c u ↔ (c ≤ d ∧ d ≤ u) := by
    intro n
    induction n with
    | zero =>
      intro c hn d
      rw [rangeDays, if_neg (by omega : ¬ c ≤ u)]
      simp only [List.not_mem_nil, false_iff]
      omega
    | succ n ih =>
      intro c hn d
      by_cases hc : c ≤ u
      · rw [rangeDays, if_pos hc, List.mem_cons, ih (c + 1) (by omega) d]
        constructor
        · rintro (rfl | ⟨h1, h2⟩)
          · exact ⟨le_refl d, hc⟩
          · exact ⟨by omega, h2⟩
        · rintro ⟨h1, h2⟩
          rcases eq_or_lt_of_le h1 with heq | hlt
          · exact Or.inl heq.symm
          · exact Or.inr ⟨by omega, h2⟩
      · rw [rangeDays, if_neg hc]
        simp only [List.not_mem_nil, false_iff]
        omega
  exact fun c d => H (u + 1 - c).toNat c rfl d

/-- The day range is strictly ascending. -/
theorem rangeDays_sorted (u : Int) : ∀ c : Int,
    List.Pairwise (fun a b => a < b) (rangeDays c u) := by
  have H : ∀ (n : Nat) (c : Int), (u + 1 - c).toNat = n →
      List.Pairwise (fun a b => a < b) (rangeDays c u) := by
    intro n
    induction n with
    | zero =>
      intro c hn
      rw [rangeDays, if_neg (by omega : ¬ c ≤ u)]
      exact List.Pairwise.nil
    | succ n ih =>
      intro c hn
      by_cases hc : c ≤ u
      · rw [rangeDays, if_pos hc]
        refine List.Pairwise.cons ?_ (ih (c + 1) (by omega))
        intro b hb
        have := (mem_rangeDays u (c + 1) b).mp hb
        omega
      · rw [rangeDays, if_neg hc]
        exact List.Pairwise.nil
  exact fun c => H (u + 1 - c).toNat c rfl

/-- C7: during one scan each game's box score is fetched at most once;
never when its identifier is in the initial seen-set; every box-fetched
identifier is in the final seen-set (it was added before the fetch, and it
stays there whether or not the fetch succeeded or yielded anything); and
the initial seen-set is retained. -/
theorem fetch_box_scores_dedup :
    ∀ (env : ScanEnv) (since untilDay : Int) (processed : List String) (g : String),
      ((fetch_box_scores_for_range env since untilDay processed).1.count
        (FetchEvent.box g) ≤ 1) ∧
      (g ∈ processed →
        FetchEvent.box g ∉ (fetch_box_scores_for_range env since untilDay processed).1) ∧
      (FetchEvent.box g ∈ (fetch_box_scores_for_range env since untilDay processed).1 →
        g ∈ (fetch_box_scores_for_range env since untilDay processed).2.1) ∧
      (g ∈ processed → g ∈ (fetch_box_scores_for_range env since untilDay processed).2.1) := by
  intro env since u processed g
  refine ⟨scanLoop_box_count env u since processed g, ?_, ?_, ?_⟩
  · intro hp hmem
    exact (scanLoop_box_mem env u since processed g hmem).1 hp
  · intro hmem
    exact (scanLoop_box_mem env u since processed g hmem).2
  · intro hp
    exact scanLoop_seen_mono env u since processed hp

/-- A two-day environment: day 0 lists two games, one of which fails its
box-score fetch; all other schedule fetches fail. -/
def wit7Env : ScanEnv :=
  ⟨fun d => if d = 0 then Except.ok ["0042400123", "0042400200"] else Except.error (),
   fun g => if g = "0042400200" then Except.error () else Except.ok []⟩

/-- Witness: an initially seen game is never box-fetched and stays seen. -/
theorem fetch_box_scores_dedup_witness :
    FetchEvent.box "0042400123" ∉
      (fetch_box_scores_for_range wit7Env 0 1 ["0042400123"]).1 ∧
    "0042400123" ∈ (fetch_box_scores_for_range wit7Env 0 1 ["0042400123"]).2.1 :=
  ⟨(fetch_box_scores_dedup wit7Env 0 1 ["0042400123"] "0042400123").2.1 (by decide),
   (fetch_box_scores_dedup wit7Env 0 1 ["0042400123"] "0042400123").2.2.2 (by decide)⟩

/-- C8: the scan's schedule trace is exactly the ascending inclusive day
range [since, until] (one attempt per in-range day, none outside), each
box-score document receives at most one fetch attempt, and when since is
after until the scan fetches nothing, emits nothing and leaves the seen-set
unchanged; the trace and output are lists, so every scan is finite. -/
theorem fetch_box_scores_range_iteration :
    ∀ (env : ScanEnv) (since untilDay : Int) (processed : List String),
      ((fetch_box_scores_for_range env since untilDay processed).1.filterMap schedDay =
        rangeDays since untilDay) ∧
      (∀ d : Int, d ∈ rangeDays since untilDay ↔ (since ≤ d ∧ d ≤ untilDay)) ∧
      List.Pairwise (fun a b => a < b) (rangeDays since untilDay) ∧
      (∀ d : Int, (fetch_box_scores_for_range env since untilDay processed).1.count
          (FetchEvent.sched d) = if since ≤ d ∧ d ≤ untilDay then 1 else 0) ∧
      (∀ g : String, (fetch_box_scores_for_range env since untilDay processed).1.count
          (FetchEvent.box g) ≤ 1) ∧
      (untilDay < since →
        fetch_box_scores_for_range env since untilDay processed = ([], processed, [])) := by
  intro env since u processed
  exact ⟨scanLoop_sched_trace env u since processed, mem_rangeDays u since,
    rangeDays_sorted u since, scanLoop_sched_count env u since processed,
    fun g => scanLoop_box_count env u since processed g,
    fun hlt => scanLoop_out_of_range env u since processed (by omega)⟩

/-- An environment whose fetches all succeed with empty payloads. -/
def wit8Env : ScanEnv :=
  ⟨fun _ => Except.ok [], fun _ => Except.ok []⟩

/-- Witness: the range membership at a concrete day, and an empty range
scanning to nothing. -/
theorem fetch_box_scores_range_iteration_witness :
    ((1 : Int) ∈ rangeDays 0 2 ↔ ((0 : Int) ≤ 1 ∧ (1 : Int) ≤ 2)) ∧
    fetch_box_scores_for_range wit8Env 1 0 [] = ([], [], []) :=
  ⟨(fetch_box_scores_range_iteration wit8Env 0 2 []).2.1 1,
   (fetch_box_scores_range_iteration wit8Env 1 0 []).2.2.2.2.2 (by norm_num)⟩
